import Mathlib

/-!
Verification of the chess tournament core implemented in src/models and
src/utils of the repository: match result entry, round lifecycle, the
per-tournament score ledger, rankings, tie detection for first place and
the Swiss pairing engine.  Scores are embedded as rationals: every score
value occurring in the code (0, 0.5, 1, the 0.001 tolerance) and every sum
of such values is represented exactly both by the Python floats and by
rationals, so all comparisons agree with the float computations.
-/

deriving instance DecidableEq for Except

namespace Chess

/-- Player record, from src/models/player.py.  Only the fields the core
logic reads are kept; identity attributes are opaque validated strings. -/
structure Player where
  last_name : String
  first_name : String
  birthdate : String
  national_id : String
  deriving DecidableEq

/-- Error outcomes of Match operations, from the ValueError messages raised
in src/models/match.py. -/
inductive MatchError where
  /-- raised by the constructor when both ids coincide -/
  | samePlayer
  /-- message: the scores must be 0, 0.5 or 1 -/
  | invalidScore
  /-- message: the score sum must equal 1.0 -/
  | scoreSum
  deriving DecidableEq

/-- Match state, from src/models/match.py. -/
structure Match where
  player1_national_id : String
  player2_national_id : String
  player1_score : ℚ
  player2_score : ℚ
  is_finished : Bool
  deriving DecidableEq

/-- validate_score from src/utils/validators.py: the score must be one of
0, 0.5, 1. -/
def validate_score (score : ℚ) : Bool :=
  decide (score = 0 ∨ score = 1/2 ∨ score = 1)

/-- Match constructor, from src/models/match.py: rejects a match of a
player against themselves, starts with both scores 0 and unfinished. -/
def Match.create (player1_national_id player2_national_id : String) :
    Except MatchError Match :=
  if player1_national_id = player2_national_id then .error .samePlayer
  else .ok { player1_national_id := player1_national_id,
             player2_national_id := player2_national_id,
             player1_score := 0,
             player2_score := 0,
             is_finished := false }

/-- Match.set_result from src/models/match.py: validates both scores, then
the sum (tolerance 0.001), then stores the scores and marks finished. -/
def Match.set_result (m : Match) (player1_score player2_score : ℚ) :
    Except MatchError Match :=
  if ¬ (validate_score player1_score ∧ validate_score player2_score) then
    .error .invalidScore
  else if |player1_score + player2_score - 1| > 1/1000 then
    .error .scoreSum
  else
    .ok { m with player1_score := player1_score,
                 player2_score := player2_score,
                 is_finished := true }

/-- Error outcomes of Round operations, from the ValueError messages raised
in src/models/round.py. -/
inductive RoundError where
  /-- message: cannot add a match to a finished round -/
  | roundClosed
  /-- message: there remain n unfinished matches -/
  | matchesPending (unfinished_count : Nat)
  /-- raised by the constructor on an empty name -/
  | emptyName
  deriving DecidableEq

/-- Round state, from src/models/round.py.  The field written `matches` in
the source keeps its name, quoted because it is a Lean keyword.  Timestamps
are opaque strings produced by utils/date_utils; the current time is passed
explicitly to the operations that stamp it. -/
structure Round where
  name : String
  start_time : String
  end_time : Option String
  «matches» : List Match
  is_finished : Bool
  deriving DecidableEq

/-- Round constructor, from src/models/round.py. -/
def Round.create (name : String) (now : String) : Except RoundError Round :=
  if name.trim = "" then .error .emptyName
  else .ok { name := name.trim,
             start_time := now,
             end_time := none,
             «matches» := [],
             is_finished := false }

/-- Round.add_match: appends unless the round is already finished. -/
def Round.add_match (r : Round) (m : Match) : Except RoundError Round :=
  if r.is_finished then .error .roundClosed
  else .ok { r with «matches» := r.«matches» ++ [m] }

/-- Round.all_matches_finished. -/
def Round.all_matches_finished (r : Round) : Bool :=
  r.«matches».all (·.is_finished)

/-- Round.get_finished_matches. -/
def Round.get_finished_matches (r : Round) : List Match :=
  r.«matches».filter (·.is_finished)

/-- Round.get_unfinished_matches. -/
def Round.get_unfinished_matches (r : Round) : List Match :=
  r.«matches».filter (fun m => !m.is_finished)

/-- Round.end_round: fails while matches are pending, reporting their
count; otherwise stamps the end time and closes the round. -/
def Round.end_round (r : Round) (now : String) : Except RoundError Round :=
  if ¬ r.all_matches_finished then
    .error (.matchesPending r.get_unfinished_matches.length)
  else
    .ok { r with end_time := some now, is_finished := true }

theorem validate_score_iff (s : ℚ) :
    validate_score s = true ↔ (s = 0 ∨ s = 1/2 ∨ s = 1) := by
  simp [validate_score]

/-- C4: Match.set_result fails with the invalid-score error when either
score is outside {0, 0.5, 1}, fails with the score-sum error when the sum
differs from 1 by more than the 0.001 tolerance, and otherwise succeeds,
storing the two scores and marking the match finished.  The embedding is
pure, so an error outcome produces no new match value at all: the caller
keeps the match exactly as it was before the call, which is how the code
behaves since both checks precede every assignment. -/
theorem set_result_validation (m : Match) (a b : ℚ) :
    (¬ ((a = 0 ∨ a = 1/2 ∨ a = 1) ∧ (b = 0 ∨ b = 1/2 ∨ b = 1)) →
      Match.set_result m a b = .error .invalidScore) ∧
    ((a = 0 ∨ a = 1/2 ∨ a = 1) → (b = 0 ∨ b = 1/2 ∨ b = 1) →
      1/1000 < |a + b - 1| → Match.set_result m a b = .error .scoreSum) ∧
    ((a = 0 ∨ a = 1/2 ∨ a = 1) → (b = 0 ∨ b = 1/2 ∨ b = 1) →
      ¬ (1/1000 < |a + b - 1|) →
      Match.set_result m a b =
        .ok { m with player1_score := a, player2_score := b,
                     is_finished := true }) := by
  refine ⟨fun h => ?_, fun ha hb h => ?_, fun ha hb h => ?_⟩
  · have hc : ¬ (validate_score a = true ∧ validate_score b = true) := by
      simp only [validate_score_iff]; exact h
    simp only [Match.set_result]
    rw [if_pos hc]
  · have hc : ¬ ¬ (validate_score a = true ∧ validate_score b = true) := by
      simp only [validate_score_iff]
      exact not_not_intro ⟨ha, hb⟩
    simp only [Match.set_result]
    rw [if_neg hc, if_pos h]
  · have hc : ¬ ¬ (validate_score a = true ∧ validate_score b = true) := by
      simp only [validate_score_iff]
      exact not_not_intro ⟨ha, hb⟩
    simp only [Match.set_result]
    rw [if_neg hc, if_neg h]

theorem set_result_validation_witness :
    (Match.set_result
        { player1_national_id := "AB12345", player2_national_id := "CD67890",
          player1_score := 0, player2_score := 0, is_finished := false }
        (1/4) (3/4) = .error .invalidScore) ∧
    (Match.set_result
        { player1_national_id := "AB12345", player2_national_id := "CD67890",
          player1_score := 0, player2_score := 0, is_finished := false }
        1 1 = .error .scoreSum) ∧
    (Match.set_result
        { player1_national_id := "AB12345", player2_national_id := "CD67890",
          player1_score := 0, player2_score := 0, is_finished := false }
        1 0 = .ok
        { player1_national_id := "AB12345", player2_national_id := "CD67890",
          player1_score := 1, player2_score := 0, is_finished := true }) :=
  ⟨(set_result_validation _ (1/4) (3/4)).1 (by norm_num),
   (set_result_validation _ 1 1).2.1 (by norm_num) (by norm_num) (by norm_num),
   (set_result_validation _ 1 0).2.2 (by norm_num) (by norm_num) (by norm_num)⟩

/-- A finished match exactly as produced by a first successful call
set_result(1, 0). -/
def c3_match : Match :=
  { player1_national_id := "AB12345", player2_national_id := "CD67890",
    player1_score := 1, player2_score := 0, is_finished := true }

/-- C3 counterexample: Match.set_result performs no finished-state check,
so a second call on an already finished match does not fail; it succeeds
and silently overwrites the stored scores.  The first conjunct shows
c3_match arises from a genuine first call, the second that it is finished,
the third that the second call succeeds, and the fourth that the stored
score actually changed. -/
theorem set_result_second_call_succeeds :
    (Match.set_result
        { player1_national_id := "AB12345", player2_national_id := "CD67890",
          player1_score := 0, player2_score := 0, is_finished := false }
        1 0 = .ok c3_match) ∧
    c3_match.is_finished = true ∧
    (Match.set_result c3_match 0 1 =
      .ok { c3_match with player1_score := 0, player2_score := 1,
                          is_finished := true }) ∧
    (0 : ℚ) ≠ c3_match.player1_score := by
  refine ⟨?_, rfl, ?_, by norm_num [c3_match]⟩ <;>
    norm_num [Match.set_result, validate_score, c3_match]

/-- C3 amended: a second call to Match.set_result on a finished match does
not fail with an already-finished error and does not leave the stored
scores unchanged; the call is validated exactly like a first call and, when
the new scores are valid, succeeds and overwrites the stored scores while
keeping the finished flag true.  A finished Match is therefore not
append-only and can be silently overwritten. -/
theorem set_result_on_finished_overwrites (m : Match) (a b : ℚ)
    (hfin : m.is_finished = true)
    (ha : a = 0 ∨ a = 1/2 ∨ a = 1) (hb : b = 0 ∨ b = 1/2 ∨ b = 1)
    (hsum : ¬ (1/1000 < |a + b - 1|)) :
    Match.set_result m a b =
      .ok { m with player1_score := a, player2_score := b,
                   is_finished := true } := by
  have hc : ¬ ¬ (validate_score a = true ∧ validate_score b = true) := by
    simp only [validate_score_iff]
    exact not_not_intro ⟨ha, hb⟩
  simp only [Match.set_result]
  rw [if_neg hc, if_neg hsum]

theorem set_result_on_finished_overwrites_witness :
    Match.set_result c3_match 0 1 =
      .ok { c3_match with player1_score := 0, player2_score := 1,
                          is_finished := true } :=
  set_result_on_finished_overwrites c3_match 0 1 rfl (by norm_num)
    (by norm_num) (by norm_num)

/-- C5: Round.end_round fails, reporting the number of unfinished matches,
whenever at least one match of the round is unfinished, and on success
stamps the end time and sets the closed flag; every add_match call on the
closed round then fails with the round-closed error, and closing itself
leaves the match list unchanged, so the match list of a closed round never
changes (add_match is the only operation extending it). -/
theorem round_close_discipline (r : Round) (now : String) :
    ((∃ m ∈ r.«matches», m.is_finished = false) →
      Round.end_round r now =
        .error (.matchesPending r.get_unfinished_matches.length) ∧
      0 < r.get_unfinished_matches.length) ∧
    ((∀ m ∈ r.«matches», m.is_finished = true) →
      Round.end_round r now =
        .ok { r with end_time := some now, is_finished := true }) ∧
    (∀ r', Round.end_round r now = .ok r' →
      r'.«matches» = r.«matches» ∧ r'.is_finished = true ∧
      ∀ m, Round.add_match r' m = .error .roundClosed) := by
  refine ⟨fun ⟨m, hm, hf⟩ => ⟨?_, ?_⟩, fun h => ?_, fun r' h => ?_⟩
  · have hall : ¬ r.all_matches_finished = true := by
      simp only [Round.all_matches_finished, List.all_eq_true, not_forall]
      exact ⟨m, hm, by simp [hf]⟩
    simp only [Round.end_round]
    rw [if_pos hall]
  · exact List.length_pos_of_mem (List.mem_filter.2 ⟨hm, by simp [hf]⟩)
  · have hall : ¬ ¬ r.all_matches_finished = true := by
      apply not_not_intro
      simp only [Round.all_matches_finished, List.all_eq_true]
      intro m hm
      simp [h m hm]
    simp only [Round.end_round]
    rw [if_neg hall]
  · unfold Round.end_round at h
    split at h
    · exact absurd h (by simp)
    · cases h
      exact ⟨rfl, rfl, fun m => by simp [Round.add_match]⟩

theorem round_close_discipline_witness :
    (Round.end_round
        { name := "Tour 1", start_time := "t0", end_time := none,
          «matches» := [{ player1_national_id := "AB12345",
                          player2_national_id := "CD67890",
                          player1_score := 0, player2_score := 0,
                          is_finished := false }],
          is_finished := false } "t1" = .error (.matchesPending 1)) ∧
    (Round.end_round
        { name := "Tour 1", start_time := "t0", end_time := none,
          «matches» := [c3_match], is_finished := false } "t1" =
      .ok { name := "Tour 1", start_time := "t0", end_time := some "t1",
            «matches» := [c3_match], is_finished := true }) ∧
    (Round.add_match
        { name := "Tour 1", start_time := "t0", end_time := some "t1",
          «matches» := [c3_match], is_finished := true } c3_match =
      .error .roundClosed) := by
  refine ⟨?_, ?_, ?_⟩
  · have h := ((round_close_discipline
      { name := "Tour 1", start_time := "t0", end_time := none,
        «matches» := [{ player1_national_id := "AB12345",
                        player2_national_id := "CD67890",
                        player1_score := 0, player2_score := 0,
                        is_finished := false }],
        is_finished := false } "t1").1 ⟨_, List.mem_singleton_self _, rfl⟩).1
    simpa [Round.get_unfinished_matches] using h
  · exact (round_close_discipline _ "t1").2.1
      (by intro m hm; simp only [List.mem_singleton] at hm; simp [hm, c3_match])
  · exact (((round_close_discipline
      { name := "Tour 1", start_time := "t0", end_time := none,
        «matches» := [c3_match], is_finished := false } "t1").2.2 _
      ((round_close_discipline _ "t1").2.1
        (by intro m hm; simp only [List.mem_singleton] at hm;
            simp [hm, c3_match]))).2.2 c3_match)

/-- Error outcomes of Tournament operations, from the ValueError messages
raised in src/models/tournament.py. -/
inductive TournamentError where
  /-- message: the points must be 0, 0.5 or 1 -/
  | invalidPoints
  /-- message: cannot add or remove a player once the tournament started -/
  | tournamentStarted
  /-- message: the player already participates in the tournament -/
  | duplicatePlayer
  /-- message: impossible to start the next round -/
  | cannotStartNextRound
  /-- a Match constructor error propagated while building a round -/
  | matchCreation
  deriving DecidableEq

/-- Lookup in the player_scores dict with default 0.0, as in
Tournament.get_player_score (dict.get with default). -/
def scores_get : List (String × ℚ) → String → ℚ
  | [], _ => 0
  | e :: rest, k => if e.1 = k then e.2 else scores_get rest k

/-- Assignment to the player_scores dict: overwrite the existing entry in
place or append a new one, preserving dict insertion order. -/
def scores_set : List (String × ℚ) → String → ℚ → List (String × ℚ)
  | [], k, v => [(k, v)]
  | e :: rest, k, v =>
    if e.1 = k then (k, v) :: rest else e :: scores_set rest k v

/-- Deletion from the player_scores dict, as used by remove_player. -/
def scores_del (scores : List (String × ℚ)) (k : String) :
    List (String × ℚ) :=
  scores.filter (fun e => e.1 != k)

/-- Total of all ledger entries (the sum of player_scores values). -/
def ledger_total (scores : List (String × ℚ)) : ℚ :=
  (scores.map (fun e => e.2)).sum

/-- Tournament state, from src/models/tournament.py.  The global id counter
and the validated name and date strings play no role in the core logic; the
string fields are kept opaque.  The private Python attribute _is_finished
keeps its name. -/
structure Tournament where
  name : String
  location : String
  start_date : String
  end_date : String
  description : String
  number_of_rounds : Nat
  current_round : Nat
  rounds : List Round
  players : List Player
  player_scores : List (String × ℚ)
  _is_finished : Bool
  deriving DecidableEq

/-- Tournament.get_player_score. -/
def Tournament.get_player_score (t : Tournament) (national_id : String) : ℚ :=
  scores_get t.player_scores national_id

/-- Tournament.add_score_to_player: validates the points then adds them to
the current score entry of the player. -/
def Tournament.add_score_to_player (t : Tournament) (national_id : String)
    (points : ℚ) : Except TournamentError Tournament :=
  if ¬ validate_score points then .error .invalidPoints
  else .ok { t with
              player_scores :=
                scores_set t.player_scores national_id
                  (scores_get t.player_scores national_id + points) }

/-- Tournament.has_started. -/
def Tournament.has_started (t : Tournament) : Bool :=
  decide (0 < t.rounds.length)

/-- A concrete registered player used by concrete instances. -/
def pAnna : Player :=
  { last_name := "Alpha", first_name := "Anna",
    birthdate := "1990-01-01", national_id := "AB12345" }

/-- A concrete registered player used by concrete instances. -/
def pBob : Player :=
  { last_name := "Beta", first_name := "Bob",
    birthdate := "1991-02-02", national_id := "CD67890" }

/-- A concrete fresh two-player tournament before any round. -/
def c6_tournament : Tournament :=
  { name := "Open de Paris", location := "Paris",
    start_date := "2026-01-01", end_date := "2026-01-02",
    description := "", number_of_rounds := 4, current_round := 0,
    rounds := [], players := [pAnna, pBob],
    player_scores := [("AB12345", 0), ("CD67890", 0)],
    _is_finished := false }

theorem ledger_total_scores_set (s : List (String × ℚ)) (k : String)
    (p : ℚ) :
    ledger_total (scores_set s k (scores_get s k + p)) =
      ledger_total s + p := by
  induction s with
  | nil => simp [scores_get, scores_set, ledger_total]
  | cons e rest ih =>
    by_cases hk : e.1 = k
    · simp only [scores_get, scores_set, if_pos hk, ledger_total,
        List.map_cons, List.sum_cons]
      ring
    · simp only [scores_get, scores_set, if_neg hk, ledger_total,
        List.map_cons, List.sum_cons] at *
      rw [ih]
      ring

theorem add_score_to_player_ok (t : Tournament) (national_id : String)
    (points : ℚ) (hv : validate_score points = true) :
    Tournament.add_score_to_player t national_id points =
      .ok { t with
              player_scores :=
                scores_set t.player_scores national_id
                  (scores_get t.player_scores national_id + points) } := by
  simp only [Tournament.add_score_to_player]
  rw [if_neg (not_not_intro hv)]

/-- C6: a successful Match.set_result stores two scores summing to exactly
1, and recording that result in the ledger (adding each score to the score
entry of the corresponding player, as update_player_scores does through
add_score_to_player) increases the total of all ledger entries by exactly
1. -/
theorem score_conservation (m : Match) (a b : ℚ) (m' : Match)
    (t : Tournament) (hset : Match.set_result m a b = .ok m') :
    m'.player1_score + m'.player2_score = 1 ∧
    ∃ t1 t2,
      Tournament.add_score_to_player t m'.player1_national_id
        m'.player1_score = .ok t1 ∧
      Tournament.add_score_to_player t1 m'.player2_national_id
        m'.player2_score = .ok t2 ∧
      ledger_total t2.player_scores = ledger_total t.player_scores + 1 := by
  unfold Match.set_result at hset
  split at hset
  · exact absurd hset (by simp)
  · split at hset
    · exact absurd hset (by simp)
    · rename_i hval hsum
      rw [not_not] at hval
      obtain ⟨ha, hb⟩ := hval
      cases hset
      have hab : a + b = 1 := by
        rw [validate_score_iff] at ha hb
        rcases ha with rfl | rfl | rfl <;> rcases hb with rfl | rfl | rfl <;>
          norm_num [abs_le] at hsum ⊢
      dsimp only
      refine ⟨hab, _, _, add_score_to_player_ok t _ _ ha,
        add_score_to_player_ok _ _ _ hb, ?_⟩
      dsimp only
      rw [ledger_total_scores_set, ledger_total_scores_set, add_assoc, hab]

theorem score_conservation_witness :
    c3_match.player1_score + c3_match.player2_score = 1 ∧
    ∃ t1 t2,
      Tournament.add_score_to_player c6_tournament
        c3_match.player1_national_id c3_match.player1_score = .ok t1 ∧
      Tournament.add_score_to_player t1 c3_match.player2_national_id
        c3_match.player2_score = .ok t2 ∧
      ledger_total t2.player_scores =
        ledger_total c6_tournament.player_scores + 1 :=
  score_conservation
    { player1_national_id := "AB12345", player2_national_id := "CD67890",
      player1_score := 0, player2_score := 0, is_finished := false }
    1 0 c3_match c6_tournament
    (by norm_num [Match.set_result, validate_score, c3_match])

/-- Sort key of get_current_rankings: score descending, then last name,
then first name, compared lexicographically as the Python tuple
(-score, last_name, first_name) is. -/
def rankKey (t : Tournament) (p : Player) : Lex (ℚ × Lex (String × String)) :=
  toLex (-(t.get_player_score p.national_id), toLex (p.last_name, p.first_name))

/-- The ranking order relation induced by rankKey. -/
def rankRel (t : Tournament) (p q : Player) : Prop :=
  rankKey t p ≤ rankKey t q

instance rankRelDecidable (t : Tournament) : DecidableRel (rankRel t) :=
  fun p q => inferInstanceAs (Decidable (rankKey t p ≤ rankKey t q))

/-- Tournament.get_current_rankings: the roster sorted by descending score
with the deterministic (last name, first name) secondary key.  Python
sorted is a stable sort, modelled by insertion sort, which is stable for
the same comparison. -/
def Tournament.get_current_rankings (t : Tournament) : List Player :=
  List.insertionSort (rankRel t) t.players

/-- Tournament.has_tie_for_first_place: at least two players and the two
top-ranked players have scores within the 0.001 tolerance. -/
def Tournament.has_tie_for_first_place (t : Tournament) : Bool :=
  if t.players.length < 2 then false
  else
    match t.get_current_rankings with
    | p0 :: p1 :: _ =>
        decide (|t.get_player_score p0.national_id -
                 t.get_player_score p1.national_id| < 1/1000)
    | _ => false

/-- Tournament.get_tied_players_for_first: walk the rankings appending
while the score stays within the 0.001 tolerance of the leader score and
stop at the first gap; return the collected players when more than one,
else the empty list. -/
def Tournament.get_tied_players_for_first (t : Tournament) : List Player :=
  match t.get_current_rankings with
  | [] => []
  | p0 :: rest =>
      let tied := (p0 :: rest).takeWhile (fun p =>
        decide (|t.get_player_score p.national_id -
                 t.get_player_score p0.national_id| < 1/1000))
      if 1 < tied.length then tied else []

/-- Tournament.needs_tiebreaker_round. -/
def Tournament.needs_tiebreaker_round (t : Tournament) : Bool :=
  decide (t.number_of_rounds ≤ t.current_round) &&
    t.has_tie_for_first_place && !t._is_finished

theorem get_current_rankings_perm (t : Tournament) :
    t.get_current_rankings.Perm t.players :=
  List.perm_insertionSort _ _

theorem get_current_rankings_sorted (t : Tournament) :
    List.Sorted (rankRel t) t.get_current_rankings := by
  haveI : IsTotal Player (rankRel t) :=
    ⟨fun a b => le_total (rankKey t a) (rankKey t b)⟩
  haveI : IsTrans Player (rankRel t) :=
    ⟨fun a b c hab hbc => le_trans hab hbc⟩
  exact List.sorted_insertionSort _ _

theorem rankRel_score_le (t : Tournament) {p q : Player}
    (h : rankRel t p q) :
    t.get_player_score q.national_id ≤ t.get_player_score p.national_id := by
  rcases (Prod.Lex.le_iff _ _).1 h with h1 | ⟨h1, _⟩
  · have := neg_lt_neg_iff.mp h1
    exact this.le
  · exact (neg_injective h1).ge

/-- On a Pairwise-ordered list, a predicate propagating backwards along the
order makes takeWhile and filter agree. -/
theorem takeWhile_eq_filter_of_pairwise {α : Type} (p : α → Bool)
    (r : α → α → Prop) :
    ∀ l : List α, List.Pairwise r l →
      (∀ a ∈ l, ∀ b ∈ l, r a b → p b = true → p a = true) →
      l.takeWhile p = l.filter p := by
  intro l
  induction l with
  | nil => intro _ _; rfl
  | cons a l ih =>
    intro hp hcl
    obtain ⟨hra, hpl⟩ := List.pairwise_cons.1 hp
    by_cases hpa : p a = true
    · rw [List.takeWhile_cons_of_pos hpa, List.filter_cons_of_pos hpa,
        ih hpl (fun x hx y hy => hcl x (List.mem_cons_of_mem a hx) y
          (List.mem_cons_of_mem a hy))]
    · rw [List.takeWhile_cons_of_neg hpa, List.filter_cons_of_neg hpa]
      symm
      rw [List.filter_eq_nil_iff]
      intro b hb hpb
      exact hpa (hcl a (List.mem_cons_self a l) b (List.mem_cons_of_mem a hb)
        (hra b hb) hpb)

/-- Scores reachable through play are integer multiples of one half; on
such scores the 0.001 tolerance test is exact equality. -/
theorem half_integral_tolerance {x y : ℚ} (hx : ∃ n : ℤ, x = n / 2)
    (hy : ∃ n : ℤ, y = n / 2) : |x - y| < 1/1000 ↔ x = y := by
  obtain ⟨n, rfl⟩ := hx
  obtain ⟨m, rfl⟩ := hy
  rcases eq_or_ne n m with rfl | hne
  · simp
  · have h1 : (1 : ℚ) ≤ |(n : ℚ) - m| := by
      have h0 := Int.one_le_abs (sub_ne_zero.2 hne)
      calc (1 : ℚ) ≤ ((|n - m| : ℤ) : ℚ) := by exact_mod_cast h0
        _ = |(n : ℚ) - m| := by push_cast; rfl
    constructor
    · intro h
      exfalso
      have h2 : |(n : ℚ)/2 - m/2| = |(n : ℚ) - m| / 2 := by
        rw [div_sub_div_same, abs_div]
        norm_num
      rw [h2] at h
      linarith
    · intro h
      exfalso
      apply hne
      have h3 : (n : ℚ)/2 = m/2 := h
      have h2 : (n : ℚ) = m := by linarith
      exact_mod_cast h2

theorem has_tie_eq_nil (t : Tournament)
    (h : t.get_current_rankings = []) :
    t.has_tie_for_first_place = false := by
  unfold Tournament.has_tie_for_first_place
  rw [h]
  split <;> rfl

theorem has_tie_eq_single (t : Tournament) (p : Player)
    (h : t.get_current_rankings = [p]) :
    t.has_tie_for_first_place = false := by
  unfold Tournament.has_tie_for_first_place
  rw [h]
  split <;> rfl

theorem has_tie_eq_cons (t : Tournament) (p0 p1 : Player)
    (rest : List Player) (h : t.get_current_rankings = p0 :: p1 :: rest)
    (hlen2 : 2 ≤ t.players.length) :
    t.has_tie_for_first_place =
      decide (|t.get_player_score p0.national_id -
               t.get_player_score p1.national_id| < 1/1000) := by
  unfold Tournament.has_tie_for_first_place
  rw [h, if_neg (by omega)]

theorem get_tied_eq_nil (t : Tournament)
    (h : t.get_current_rankings = []) :
    t.get_tied_players_for_first = [] := by
  unfold Tournament.get_tied_players_for_first
  rw [h]

theorem get_tied_eq_cons (t : Tournament) (p0 : Player)
    (rest : List Player) (h : t.get_current_rankings = p0 :: rest) :
    t.get_tied_players_for_first =
      (if 1 < ((p0 :: rest).takeWhile (fun p =>
          decide (|t.get_player_score p.national_id -
                   t.get_player_score p0.national_id| < 1/1000))).length
       then (p0 :: rest).takeWhile (fun p =>
          decide (|t.get_player_score p.national_id -
                   t.get_player_score p0.national_id| < 1/1000))
       else []) := by
  unfold Tournament.get_tied_players_for_first
  rw [h]

/-- C7: with all roster scores integer multiples of one half (as every
score reachable through add_score_to_player is), has_tie_for_first_place is
true exactly when the rankings hold at least two players and the two
top-ranked ones have equal scores (the 0.001 tolerance test is then exact
equality), and get_tied_players_for_first returns exactly the players of
the rankings whose score equals the leader score, in ranking order, when at
least two of them exist, and the empty list otherwise; in particular the
returned list is never of length one. -/
theorem tie_for_first_characterization (t : Tournament)
    (hhalf : ∀ p ∈ t.players,
      ∃ n : ℤ, t.get_player_score p.national_id = n / 2) :
    (t.has_tie_for_first_place = true ↔
      ∃ p0 p1, t.get_current_rankings[0]? = some p0 ∧
        t.get_current_rankings[1]? = some p1 ∧
        t.get_player_score p0.national_id =
          t.get_player_score p1.national_id) ∧
    (∀ p0, t.get_current_rankings[0]? = some p0 →
      t.get_tied_players_for_first =
        (if 1 < (t.get_current_rankings.filter (fun p =>
            decide (t.get_player_score p.national_id =
                    t.get_player_score p0.national_id))).length
         then t.get_current_rankings.filter (fun p =>
            decide (t.get_player_score p.national_id =
                    t.get_player_score p0.national_id))
         else [])) ∧
    (t.get_tied_players_for_first = [] ∨
      2 ≤ t.get_tied_players_for_first.length) := by
  have hmem : ∀ p ∈ t.get_current_rankings,
      ∃ n : ℤ, t.get_player_score p.national_id = n / 2 :=
    fun p hp => hhalf p ((get_current_rankings_perm t).mem_iff.1 hp)
  have hlen : t.get_current_rankings.length = t.players.length :=
    (get_current_rankings_perm t).length_eq
  refine ⟨?_, ?_, ?_⟩
  · cases hrk : t.get_current_rankings with
    | nil =>
        rw [has_tie_eq_nil t hrk]
        simp
    | cons p0 tail =>
        cases tail with
        | nil =>
            rw [has_tie_eq_single t p0 hrk]
            simp
        | cons p1 rest =>
            have hlen2 : 2 ≤ t.players.length := by
              rw [← hlen, hrk]
              simp
            have h0 : p0 ∈ t.get_current_rankings := by rw [hrk]; simp
            have h1 : p1 ∈ t.get_current_rankings := by rw [hrk]; simp
            rw [has_tie_eq_cons t p0 p1 rest hrk hlen2, decide_eq_true_iff,
              half_integral_tolerance (hmem p0 h0) (hmem p1 h1)]
            constructor
            · intro h
              exact ⟨p0, p1, by simp, by simp, h⟩
            · rintro ⟨q0, q1, hq0, hq1, hq⟩
              simp only [List.getElem?_cons_zero, List.getElem?_cons_succ,
                Option.some.injEq] at hq0 hq1
              subst hq0
              subst hq1
              exact hq
  · intro p0 hp0
    obtain ⟨rest, hrk⟩ : ∃ rest, t.get_current_rankings = p0 :: rest := by
      cases hcr : t.get_current_rankings with
      | nil => rw [hcr] at hp0; simp at hp0
      | cons a l =>
          rw [hcr] at hp0
          simp only [List.getElem?_cons_zero, Option.some.injEq] at hp0
          exact ⟨l, by rw [hp0]⟩
    have hsorted : List.Sorted (rankRel t) (p0 :: rest) := by
      rw [← hrk]; exact get_current_rankings_sorted t
    have hmem' : ∀ p ∈ (p0 :: rest),
        ∃ n : ℤ, t.get_player_score p.national_id = n / 2 := by
      intro p hp; exact hmem p (by rw [hrk]; exact hp)
    have hle : ∀ p ∈ (p0 :: rest), t.get_player_score p.national_id ≤
        t.get_player_score p0.national_id := by
      intro p hp
      rcases List.mem_cons.1 hp with rfl | hp
      · exact le_refl _
      · exact rankRel_score_le t
          ((List.pairwise_cons.1 hsorted).1 p hp)
    have htf : (p0 :: rest).takeWhile (fun p =>
        decide (|t.get_player_score p.national_id -
                 t.get_player_score p0.national_id| < 1/1000)) =
        (p0 :: rest).filter (fun p =>
          decide (t.get_player_score p.national_id =
                  t.get_player_score p0.national_id)) := by
      rw [takeWhile_eq_filter_of_pairwise _ (rankRel t) _ hsorted]
      · apply List.filter_congr
        intro p hp
        simp only [decide_eq_decide]
        exact half_integral_tolerance (hmem' p hp) (hmem' p0
          (List.mem_cons_self _ _))
      · intro a ha b hb hab hpb
        rw [decide_eq_true_iff] at hpb ⊢
        have hba := rankRel_score_le t hab
        have hax := hle a ha
        have hbx := hle b hb
        rw [abs_sub_lt_iff] at hpb ⊢
        constructor <;> linarith [hpb.1, hpb.2]
    rw [get_tied_eq_cons t p0 rest hrk, htf, hrk]
  · cases hrk : t.get_current_rankings with
    | nil =>
        left
        exact get_tied_eq_nil t hrk
    | cons q0 rest =>
        rw [get_tied_eq_cons t q0 rest hrk]
        by_cases hl : 1 < ((q0 :: rest).takeWhile (fun p =>
            decide (|t.get_player_score p.national_id -
                     t.get_player_score q0.national_id| < 1/1000))).length
        · right
          rw [if_pos hl]
          omega
        · left
          rw [if_neg hl]

theorem tie_for_first_characterization_witness :
    (∀ p ∈ c6_tournament.players,
      ∃ n : ℤ, c6_tournament.get_player_score p.national_id = n / 2) ∧
    ((c6_tournament.has_tie_for_first_place = true ↔
      ∃ p0 p1, c6_tournament.get_current_rankings[0]? = some p0 ∧
        c6_tournament.get_current_rankings[1]? = some p1 ∧
        c6_tournament.get_player_score p0.national_id =
          c6_tournament.get_player_score p1.national_id) ∧
    (∀ p0, c6_tournament.get_current_rankings[0]? = some p0 →
      c6_tournament.get_tied_players_for_first =
        (if 1 < (c6_tournament.get_current_rankings.filter (fun p =>
            decide (c6_tournament.get_player_score p.national_id =
                    c6_tournament.get_player_score p0.national_id))).length
         then c6_tournament.get_current_rankings.filter (fun p =>
            decide (c6_tournament.get_player_score p.national_id =
                    c6_tournament.get_player_score p0.national_id))
         else [])) ∧
    (c6_tournament.get_tied_players_for_first = [] ∨
      2 ≤ c6_tournament.get_tied_players_for_first.length)) := by
  have hhalf : ∀ p ∈ c6_tournament.players,
      ∃ n : ℤ, c6_tournament.get_player_score p.national_id = n / 2 := by
    intro p hp
    refine ⟨0, ?_⟩
    have : p = pAnna ∨ p = pBob := by
      simpa [c6_tournament] using hp
    rcases this with rfl | rfl <;>
      norm_num [c6_tournament, Tournament.get_player_score, scores_get,
        pAnna, pBob]
  exact ⟨hhalf, tie_for_first_characterization c6_tournament hhalf⟩

/-- Error outcome of the pairing engine, from the ValueError raised in
src/utils/tournament_helpers.py. -/
inductive PairingError where
  /-- message: odd number of players -/
  | oddRoster
  deriving DecidableEq

/-- Flatten a list of pairs into the list of players they contain. -/
def pairs_players : List (Player × Player) → List Player
  | [] => []
  | (a, b) :: rest => a :: b :: pairs_players rest

namespace TournamentPairingHelper

/-- _have_played_against from src/utils/tournament_helpers.py: two players
already met when some match of some prior round pairs their national ids in
either order. -/
def _have_played_against (t : Tournament) (player1 player2 : Player) :
    Bool :=
  t.rounds.any (fun round_obj => round_obj.«matches».any (fun m =>
    (m.player1_national_id == player1.national_id &&
     m.player2_national_id == player2.national_id) ||
    (m.player1_national_id == player2.national_id &&
     m.player2_national_id == player1.national_id)))

/-- _generate_first_round_pairs pairs the shuffled roster consecutively
(index 0 with 1, 2 with 3, and so on).  The uniform random shuffle is
modelled by passing the shuffled roster explicitly; every theorem assumes
only that it is some permutation of the roster. -/
def _generate_first_round_pairs : List Player → List (Player × Player)
  | a :: b :: rest => (a, b) :: _generate_first_round_pairs rest
  | _ => []

/-- One search step of _generate_swiss_pairs: scan the available players in
order for the first one that has not met player1 yet, and remove it. -/
def removeFirstNonPlayed (t : Tournament) (player1 : Player) :
    List Player → Option (Player × List Player)
  | [] => none
  | q :: rest =>
    if _have_played_against t player1 q then
      match removeFirstNonPlayed t player1 rest with
      | some (p2, rest2) => some (p2, q :: rest2)
      | none => none
    else some (q, rest)

theorem removeFirstNonPlayed_perm (t : Tournament) (player1 : Player) :
    ∀ (l : List Player) (p2 : Player) (rest2 : List Player),
      removeFirstNonPlayed t player1 l = some (p2, rest2) →
      (p2 :: rest2).Perm l := by
  intro l
  induction l with
  | nil => intro p2 rest2 h; cases h
  | cons q rest ih =>
    intro p2 rest2 h
    unfold removeFirstNonPlayed at h
    split at h
    · cases hr : removeFirstNonPlayed t player1 rest with
      | none => rw [hr] at h; cases h
      | some pr =>
          obtain ⟨p2x, rest2x⟩ := pr
          rw [hr] at h
          cases h
          refine List.Perm.trans ?_ ((ih _ _ hr).cons q)
          exact List.Perm.swap _ _ _
    · cases h
      exact List.Perm.refl _

theorem removeFirstNonPlayed_length (t : Tournament) (player1 : Player)
    (l : List Player) (p2 : Player) (rest2 : List Player)
    (h : removeFirstNonPlayed t player1 l = some (p2, rest2)) :
    rest2.length + 1 = l.length := by
  have := (removeFirstNonPlayed_perm t player1 l p2 rest2 h).length_eq
  simpa using this

/-- The while loop of _generate_swiss_pairs: pop the best available
player, pair it with the first available opponent it has not met, or with
the first available player when every candidate would be a rematch.  Each
iteration consumes exactly two players. -/
def swissLoop (t : Tournament) : List Player → List (Player × Player)
  | [] => []
  | [_] => []
  | p1 :: q :: rest =>
    match h : removeFirstNonPlayed t p1 (q :: rest) with
    | some (p2, rest2) => (p1, p2) :: swissLoop t rest2
    | none => (p1, q) :: swissLoop t rest
termination_by l => l.length
decreasing_by
  · have hl := removeFirstNonPlayed_length t p1 (q :: rest) p2 rest2 h
    simp only [List.length_cons] at hl ⊢
    omega
  · simp only [List.length_cons]
    omega

theorem swissLoop_bounded_perm (t : Tournament) :
    ∀ (n : ℕ) (l : List Player), l.length ≤ n → l.length % 2 = 0 →
      (pairs_players (swissLoop t l)).Perm l ∧
      (swissLoop t l).length = l.length / 2 := by
  intro n
  induction n with
  | zero =>
      intro l hl _
      have h0 : l = [] := List.length_eq_zero.1 (Nat.le_zero.1 hl)
      subst h0
      exact ⟨by simp [swissLoop, pairs_players], by simp [swissLoop]⟩
  | succ n ih =>
      intro l hl he
      match l with
      | [] => exact ⟨by simp [swissLoop, pairs_players], by simp [swissLoop]⟩
      | [p] => simp at he
      | p1 :: q :: rest =>
          rw [swissLoop]
          cases hr : removeFirstNonPlayed t p1 (q :: rest) with
          | some pr =>
              obtain ⟨p2, rest2⟩ := pr
              have hperm := removeFirstNonPlayed_perm t p1 (q :: rest)
                p2 rest2 hr
              have hlen2 : rest2.length = rest.length := by
                have := hperm.length_eq
                simp only [List.length_cons] at this
                omega
              have hlb : rest2.length ≤ n := by
                simp only [List.length_cons] at hl
                omega
              have heb : rest2.length % 2 = 0 := by
                simp only [List.length_cons] at he
                omega
              obtain ⟨ihp, ihl⟩ := ih rest2 hlb heb
              constructor
              · show (p1 :: p2 :: pairs_players (swissLoop t rest2)).Perm
                  (p1 :: q :: rest)
                exact ((ihp.cons p2).trans hperm).cons p1
              · show (swissLoop t rest2).length + 1 =
                  (p1 :: q :: rest).length / 2
                simp only [List.length_cons]
                omega
          | none =>
              have hlb : rest.length ≤ n := by
                simp only [List.length_cons] at hl
                omega
              have heb : rest.length % 2 = 0 := by
                simp only [List.length_cons] at he
                omega
              obtain ⟨ihp, ihl⟩ := ih rest hlb heb
              constructor
              · show (p1 :: q :: pairs_players (swissLoop t rest)).Perm
                  (p1 :: q :: rest)
                exact (ihp.cons q).cons p1
              · show (swissLoop t rest).length + 1 =
                  (p1 :: q :: rest).length / 2
                simp only [List.length_cons]
                omega

theorem _generate_first_round_pairs_flat :
    ∀ l : List Player, l.length % 2 = 0 →
      pairs_players (_generate_first_round_pairs l) = l
  | [], _ => rfl
  | [a], h => by simp at h
  | a :: b :: rest, h => by
      have h2 : rest.length % 2 = 0 := by
        simp only [List.length_cons] at h
        omega
      simp only [_generate_first_round_pairs, pairs_players,
        _generate_first_round_pairs_flat rest h2]

theorem _generate_first_round_pairs_length :
    ∀ l : List Player, l.length % 2 = 0 →
      (_generate_first_round_pairs l).length = l.length / 2
  | [], _ => rfl
  | [a], h => by simp at h
  | a :: b :: rest, h => by
      have h2 : rest.length % 2 = 0 := by
        simp only [List.length_cons] at h
        omega
      simp only [_generate_first_round_pairs, List.length_cons,
        _generate_first_round_pairs_length rest h2]
      omega

/-- _generate_swiss_pairs from src/utils/tournament_helpers.py: sort the
roster by descending score (secondary key last name then first name), then
run the greedy rematch-avoiding loop. -/
def _generate_swiss_pairs (t : Tournament) : List (Player × Player) :=
  swissLoop t (List.insertionSort (rankRel t) t.players)

/-- generate_pairs_for_next_round from src/utils/tournament_helpers.py:
reject an odd roster, then use the shuffled first-round pairing when no
round has started yet and the Swiss pairing otherwise. -/
def generate_pairs_for_next_round (t : Tournament)
    (shuffled : List Player) : Except PairingError (List (Player × Player)) :=
  if t.players.length % 2 ≠ 0 then .error .oddRoster
  else if t.current_round = 0 then .ok (_generate_first_round_pairs shuffled)
  else .ok (_generate_swiss_pairs t)

theorem _have_played_against_iff (t : Tournament) (p q : Player) :
    _have_played_against t p q = true ↔
      ∃ r ∈ t.rounds, ∃ m ∈ r.«matches»,
        (m.player1_national_id = p.national_id ∧
         m.player2_national_id = q.national_id) ∨
        (m.player1_national_id = q.national_id ∧
         m.player2_national_id = p.national_id) := by
  unfold _have_played_against
  simp [List.any_eq_true]

/-- C1: for every tournament whose roster has even size at least 2, both
the random first-round branch (modelled over an arbitrary permutation of
the roster) and the Swiss branch succeed with exactly N/2 pairs whose
flattened players are a permutation of the roster: every roster entry
appears in the pairs exactly as often as in the roster, hence exactly once,
and for a duplicate-free roster the flattened pairing is duplicate-free, so
no participant appears twice. -/
theorem generate_pairs_complete (t : Tournament) (shuffled : List Player)
    (hsh : shuffled.Perm t.players) (h2 : 2 ≤ t.players.length)
    (heven : t.players.length % 2 = 0) :
    ∃ pairs, generate_pairs_for_next_round t shuffled = .ok pairs ∧
      pairs.length = t.players.length / 2 ∧
      (pairs_players pairs).Perm t.players ∧
      (∀ p, (pairs_players pairs).count p = t.players.count p) ∧
      (t.players.Nodup → (pairs_players pairs).Nodup) := by
  unfold generate_pairs_for_next_round
  rw [if_neg (by omega)]
  by_cases hcr : t.current_round = 0
  · rw [if_pos hcr]
    have hlensh : shuffled.length = t.players.length := hsh.length_eq
    have hev : shuffled.length % 2 = 0 := by omega
    refine ⟨_, rfl, ?_, ?_, ?_, ?_⟩
    · rw [_generate_first_round_pairs_length shuffled hev, hlensh]
    · rw [_generate_first_round_pairs_flat shuffled hev]
      exact hsh
    · intro p
      rw [_generate_first_round_pairs_flat shuffled hev]
      exact hsh.count_eq p
    · intro hnd
      rw [_generate_first_round_pairs_flat shuffled hev]
      exact hsh.nodup_iff.2 hnd
  · rw [if_neg hcr]
    have hps : (List.insertionSort (rankRel t) t.players).Perm t.players :=
      List.perm_insertionSort _ _
    have hlens : (List.insertionSort (rankRel t) t.players).length =
        t.players.length := hps.length_eq
    have hev : (List.insertionSort (rankRel t) t.players).length % 2 = 0 := by
      omega
    obtain ⟨hperm, hlen⟩ := swissLoop_bounded_perm t
      (List.insertionSort (rankRel t) t.players).length
      (List.insertionSort (rankRel t) t.players) le_rfl hev
    have hflat : (pairs_players (_generate_swiss_pairs t)).Perm t.players :=
      (hperm.trans hps)
    refine ⟨_, rfl, ?_, hflat, fun p => hflat.count_eq p,
      fun hnd => hflat.nodup_iff.2 hnd⟩
    unfold _generate_swiss_pairs
    rw [hlen, hlens]

theorem generate_pairs_complete_witness :
    ∃ pairs, generate_pairs_for_next_round c6_tournament
        c6_tournament.players = .ok pairs ∧
      pairs.length = c6_tournament.players.length / 2 ∧
      (pairs_players pairs).Perm c6_tournament.players ∧
      (∀ p, (pairs_players pairs).count p =
        c6_tournament.players.count p) ∧
      (c6_tournament.players.Nodup → (pairs_players pairs).Nodup) :=
  generate_pairs_complete c6_tournament c6_tournament.players
    (List.Perm.refl _) (by norm_num [c6_tournament])
    (by norm_num [c6_tournament])

/-- C2: in a two-player tournament past the first round whose players have
already met, the Swiss pairing neither raises the odd-roster error nor any
other error: it returns exactly the single forced rematch pair, in one of
the two orders determined by the score-then-name sorting. -/
theorem generate_pairs_forced_rematch (t : Tournament) (x y : Player)
    (shuffled : List Player) (hplayers : t.players = [x, y])
    (hround : t.current_round ≠ 0)
    (hplayed : _have_played_against t x y = true) :
    generate_pairs_for_next_round t shuffled = .ok [(x, y)] ∨
    generate_pairs_for_next_round t shuffled = .ok [(y, x)] := by
  have hsym : _have_played_against t y x = true := by
    rw [_have_played_against_iff] at hplayed ⊢
    obtain ⟨r, hr, m, hm, hc⟩ := hplayed
    exact ⟨r, hr, m, hm, hc.symm⟩
  have hlen : t.players.length = 2 := by rw [hplayers]; rfl
  unfold generate_pairs_for_next_round
  rw [if_neg (by omega), if_neg hround]
  unfold _generate_swiss_pairs
  rw [hplayers]
  by_cases hr : rankRel t x y
  · left
    have hsort : List.insertionSort (rankRel t) [x, y] = [x, y] := by
      simp [List.insertionSort, List.orderedInsert, hr]
    rw [hsort, swissLoop]
    have hnone : removeFirstNonPlayed t x [y] = none := by
      simp [removeFirstNonPlayed, hplayed]
    rw [hnone]
    simp [swissLoop]
  · right
    have hsort : List.insertionSort (rankRel t) [x, y] = [y, x] := by
      simp [List.insertionSort, List.orderedInsert, hr]
    rw [hsort, swissLoop]
    have hnone : removeFirstNonPlayed t y [x] = none := by
      simp [removeFirstNonPlayed, hsym]
    rw [hnone]
    simp [swissLoop]

end TournamentPairingHelper

/-- A concrete two-player tournament after a first round in which the two
players already met (the finished match c3_match). -/
def c2_tournament : Tournament :=
  { name := "Open de Paris", location := "Paris",
    start_date := "2026-01-01", end_date := "2026-01-02",
    description := "", number_of_rounds := 4, current_round := 1,
    rounds := [{ name := "Tour 1", start_time := "t0",
                 end_time := some "t1", «matches» := [c3_match],
                 is_finished := true }],
    players := [pAnna, pBob],
    player_scores := [("AB12345", 1), ("CD67890", 0)],
    _is_finished := false }

theorem generate_pairs_forced_rematch_witness :
    TournamentPairingHelper.generate_pairs_for_next_round c2_tournament
        [] = .ok [(pAnna, pBob)] ∨
    TournamentPairingHelper.generate_pairs_for_next_round c2_tournament
        [] = .ok [(pBob, pAnna)] :=
  TournamentPairingHelper.generate_pairs_forced_rematch c2_tournament
    pAnna pBob [] rfl (by norm_num [c2_tournament])
    (by simp [TournamentPairingHelper._have_played_against, c2_tournament,
      c3_match, pAnna, pBob])

/-- A concrete tournament with an empty roster. -/
def c9_tournament : Tournament :=
  { name := "Tournoi vide", location := "Paris",
    start_date := "2026-01-01", end_date := "2026-01-02",
    description := "", number_of_rounds := 4, current_round := 0,
    rounds := [], players := [], player_scores := [],
    _is_finished := false }

/-- C9 counterexample: a roster of size 0 is even, so pair generation does
not fail: it returns the empty pairing list instead of failing before
pairing is attempted. -/
theorem generate_pairs_empty_roster_succeeds :
    c9_tournament.players.length = 0 ∧
    TournamentPairingHelper.generate_pairs_for_next_round c9_tournament []
      = .ok [] := by
  refine ⟨rfl, ?_⟩
  simp [TournamentPairingHelper.generate_pairs_for_next_round,
    c9_tournament, TournamentPairingHelper._generate_first_round_pairs]

/-- C9 amended: generate_pairs_for_next_round fails, with the odd-roster
error, exactly when the roster size is odd.  Roster size 1 therefore fails
before any pairing is attempted, but roster size 0 is even and succeeds,
returning the empty pairing list. -/
theorem odd_roster_error_characterization (t : Tournament)
    (shuffled : List Player) (hsh : shuffled.Perm t.players) :
    (TournamentPairingHelper.generate_pairs_for_next_round t shuffled =
        .error .oddRoster ↔ t.players.length % 2 = 1) ∧
    (t.players = [] →
      TournamentPairingHelper.generate_pairs_for_next_round t shuffled =
        .ok []) := by
  unfold TournamentPairingHelper.generate_pairs_for_next_round
  by_cases hodd : t.players.length % 2 = 0
  · rw [if_neg (by omega)]
    constructor
    · constructor
      · intro h
        split at h <;> cases h
      · intro h
        omega
    · intro hnil
      have hsh0 : shuffled = [] := List.Perm.eq_nil (hnil ▸ hsh)
      rw [hsh0]
      split
      · rfl
      · unfold TournamentPairingHelper._generate_swiss_pairs
        rw [hnil]
        simp [TournamentPairingHelper.swissLoop, List.insertionSort]
  · rw [if_pos (by omega)]
    constructor
    · constructor
      · intro _
        omega
      · intro _
        rfl
    · intro hnil
      rw [hnil] at hodd
      simp at hodd

theorem odd_roster_error_characterization_witness :
    (TournamentPairingHelper.generate_pairs_for_next_round c9_tournament
        [] = .error .oddRoster ↔ c9_tournament.players.length % 2 = 1) ∧
    (c9_tournament.players = [] →
      TournamentPairingHelper.generate_pairs_for_next_round c9_tournament
        [] = .ok []) :=
  odd_roster_error_characterization c9_tournament [] (List.Perm.refl _)

/-- Tournament.is_finished: the explicit flag, or the scheduled round
count reached with a last round that is closed. -/
def Tournament.is_finished (t : Tournament) : Bool :=
  t._is_finished ||
    (decide (t.number_of_rounds ≤ t.current_round) &&
      match t.rounds.getLast? with
      | some r => r.is_finished
      | none => false)

/-- Tournament.finish_tournament: sets the finished flag, with no guard at
all on the current state. -/
def Tournament.finish_tournament (t : Tournament) : Tournament :=
  { t with _is_finished := true }

/-- Tournament.can_start_next_round. -/
def Tournament.can_start_next_round (t : Tournament) : Bool :=
  !t.is_finished && decide (2 ≤ t.players.length) &&
    decide (t.players.length % 2 = 0) &&
    decide (t.current_round < t.number_of_rounds) &&
    (match t.rounds.getLast? with
     | some r => r.is_finished
     | none => true)

/-- Tournament.needs_tiebreaker_round is defined together with the tie
helpers above; nothing in the code base ever calls finish_tournament. -/
def Tournament.can_create_tiebreaker_pairs (t : Tournament) : Bool :=
  decide (2 ≤ t.get_tied_players_for_first.length) &&
    decide (t.get_tied_players_for_first.length % 2 = 0)

/-- Building the matches of a new round from the pre-computed pairs, as
the loop in Tournament.start_next_round does; a Match constructor error
propagates. -/
def build_round_matches :
    List (Player × Player) → Except MatchError (List Match)
  | [] => .ok []
  | (p1, p2) :: rest =>
    match Match.create p1.national_id p2.national_id with
    | .error e => .error e
    | .ok m =>
      match build_round_matches rest with
      | .error e => .error e
      | .ok ms => .ok (m :: ms)

/-- Tournament.start_next_round: guarded by can_start_next_round, then
increments the round counter and appends a fresh open round named after it
holding one match per pair.  The Round constructor validation cannot fire
because the generated name is never blank. -/
def Tournament.start_next_round (t : Tournament)
    (pairs : List (Player × Player)) (now : String) :
    Except TournamentError Tournament :=
  if ¬ t.can_start_next_round then .error .cannotStartNextRound
  else
    match build_round_matches pairs with
    | .error _ => .error .matchCreation
    | .ok ms =>
        .ok { t with
                current_round := t.current_round + 1,
                rounds := t.rounds ++
                  [{ name := "Tour " ++ toString (t.current_round + 1),
                     start_time := now, end_time := none,
                     «matches» := ms, is_finished := false }] }

/-- Tournament.add_player: rejected once the tournament has started or when
the national id is already registered; otherwise appends the player and
creates the 0 ledger entry. -/
def Tournament.add_player (t : Tournament) (p : Player) :
    Except TournamentError Tournament :=
  if t.has_started then .error .tournamentStarted
  else if t.players.any (fun q => q.national_id == p.national_id) then
    .error .duplicatePlayer
  else .ok { t with
              players := t.players ++ [p],
              player_scores := scores_set t.player_scores p.national_id 0 }

/-- Tournament.remove_player: rejected once started; otherwise removes the
first matching roster entry and its ledger entry and reports whether a
removal happened. -/
def Tournament.remove_player (t : Tournament) (p : Player) :
    Except TournamentError (Tournament × Bool) :=
  if t.has_started then .error .tournamentStarted
  else if p ∈ t.players then
    .ok ({ t with
            players := t.players.erase p,
            player_scores := scores_del t.player_scores p.national_id },
         true)
  else .ok (t, false)

/-- Tournament.reset_player_score. -/
def Tournament.reset_player_score (t : Tournament) (national_id : String) :
    Tournament :=
  if t.player_scores.any (fun e => e.1 == national_id) then
    { t with player_scores := scores_set t.player_scores national_id 0 }
  else t

/-- Tournament.reset_all_scores. -/
def Tournament.reset_all_scores (t : Tournament) : Tournament :=
  { t with player_scores := t.player_scores.map (fun e => (e.1, 0)) }

/-- One step of Tournament.update_player_scores: credit both players of a
finished match. -/
def add_finished_match_scores (t : Tournament) (m : Match) :
    Except TournamentError Tournament :=
  match t.add_score_to_player m.player1_national_id m.player1_score with
  | .error e => .error e
  | .ok t1 => t1.add_score_to_player m.player2_national_id m.player2_score

/-- Fold of add_finished_match_scores over a match list. -/
def add_matches_scores :
    Tournament → List Match → Except TournamentError Tournament
  | t, [] => .ok t
  | t, m :: ms =>
    match add_finished_match_scores t m with
    | .error e => .error e
    | .ok t1 => add_matches_scores t1 ms

/-- Tournament.update_player_scores: reset every ledger entry then replay
every finished match of every round. -/
def Tournament.update_player_scores (t : Tournament) :
    Except TournamentError Tournament :=
  add_matches_scores t.reset_all_scores
    ((t.rounds.map Round.get_finished_matches).flatten)

/-- The mutations the application performs on a round held by a
tournament: adding a match, closing the round, entering a match result in
place. -/
inductive RoundStep : Round → Round → Prop where
  | add_match (r : Round) (m : Match) (r' : Round)
      (h : Round.add_match r m = .ok r') : RoundStep r r'
  | end_round (r : Round) (now : String) (r' : Round)
      (h : Round.end_round r now = .ok r') : RoundStep r r'
  | set_result (r : Round) (j : Nat) (m m' : Match) (a b : ℚ)
      (hm : r.«matches»[j]? = some m)
      (hs : Match.set_result m a b = .ok m') :
      RoundStep r { r with «matches» := r.«matches».set j m' }

/-- The mutating operations of the Tournament model other than
finish_tournament, each taken at a successful outcome. -/
inductive TournamentStep : Tournament → Tournament → Prop where
  | add_player (t : Tournament) (p : Player) (t' : Tournament)
      (h : Tournament.add_player t p = .ok t') : TournamentStep t t'
  | remove_player (t : Tournament) (p : Player) (t' : Tournament) (b : Bool)
      (h : Tournament.remove_player t p = .ok (t', b)) : TournamentStep t t'
  | add_score (t : Tournament) (k : String) (pts : ℚ) (t' : Tournament)
      (h : Tournament.add_score_to_player t k pts = .ok t') :
      TournamentStep t t'
  | reset_player (t : Tournament) (k : String) :
      TournamentStep t (t.reset_player_score k)
  | reset_all (t : Tournament) : TournamentStep t t.reset_all_scores
  | update_scores (t t' : Tournament)
      (h : Tournament.update_player_scores t = .ok t') : TournamentStep t t'
  | start_next_round (t : Tournament) (pairs : List (Player × Player))
      (now : String) (t' : Tournament)
      (h : Tournament.start_next_round t pairs now = .ok t') :
      TournamentStep t t'
  | round_step (t : Tournament) (i : Nat) (r r' : Round)
      (hr : t.rounds[i]? = some r) (hstep : RoundStep r r') :
      TournamentStep t { t with rounds := t.rounds.set i r' }

/-- States reachable from a tournament by the mutating operations other
than finish_tournament. -/
def Reachable : Tournament → Tournament → Prop :=
  Relation.ReflTransGen TournamentStep

theorem add_score_to_player_flag {t t' : Tournament} {k : String} {pts : ℚ}
    (h : Tournament.add_score_to_player t k pts = .ok t') :
    t'._is_finished = t._is_finished := by
  unfold Tournament.add_score_to_player at h
  split at h
  · cases h
  · cases h; rfl

theorem add_finished_match_scores_flag {t t' : Tournament} {m : Match}
    (h : add_finished_match_scores t m = .ok t') :
    t'._is_finished = t._is_finished := by
  unfold add_finished_match_scores at h
  split at h
  · cases h
  · rename_i t1 h1
    rw [add_score_to_player_flag h, add_score_to_player_flag h1]

theorem add_matches_scores_flag :
    ∀ (ms : List Match) (t t' : Tournament),
      add_matches_scores t ms = .ok t' →
      t'._is_finished = t._is_finished := by
  intro ms
  induction ms with
  | nil =>
      intro t t' h
      cases h
      rfl
  | cons m ms ih =>
      intro t t' h
      unfold add_matches_scores at h
      split at h
      · cases h
      · rename_i t1 h1
        rw [ih t1 t' h, add_finished_match_scores_flag h1]

theorem TournamentStep_flag {t t' : Tournament} (h : TournamentStep t t') :
    t'._is_finished = t._is_finished := by
  cases h with
  | add_player p t' h =>
      unfold Tournament.add_player at h
      split at h
      · cases h
      · split at h
        · cases h
        · cases h; rfl
  | remove_player p t' b h =>
      unfold Tournament.remove_player at h
      split at h
      · cases h
      · split at h
        · cases h; rfl
        · cases h; rfl
  | add_score k pts t' h => exact add_score_to_player_flag h
  | reset_player k =>
      unfold Tournament.reset_player_score
      split <;> rfl
  | reset_all => rfl
  | update_scores t' h =>
      unfold Tournament.update_player_scores at h
      rw [add_matches_scores_flag _ _ _ h]
      rfl
  | start_next_round pairs now t' h =>
      unfold Tournament.start_next_round at h
      split at h
      · cases h
      · split at h
        · cases h
        · cases h; rfl
  | round_step i r r' hr hstep => rfl

theorem Reachable_flag {t0 t : Tournament} (h : Reachable t0 t) :
    t._is_finished = t0._is_finished := by
  induction h with
  | refl => rfl
  | tail hab hbc ih => rw [TournamentStep_flag hbc, ih]

/-- C8 amended: finish_tournament sets the finished flag unconditionally,
and no other operation sets it.  Therefore along any sequence of the other
mutating operations a tournament reports finished only when the scheduled
round count has been reached and the last round exists and is closed; but
one finish_tournament call makes the tournament report finished even below
the scheduled count with an open last round (see the counterexample). -/
theorem finished_only_after_schedule (t0 t : Tournament)
    (h0 : t0._is_finished = false) (hreach : Reachable t0 t)
    (hfin : t.is_finished = true) :
    t.number_of_rounds ≤ t.current_round ∧
    ∃ r, t.rounds.getLast? = some r ∧ r.is_finished = true := by
  have hflag : t._is_finished = false := by rw [Reachable_flag hreach, h0]
  unfold Tournament.is_finished at hfin
  rw [hflag] at hfin
  simp only [Bool.false_or, Bool.and_eq_true, decide_eq_true_eq] at hfin
  obtain ⟨hle, hmatch⟩ := hfin
  refine ⟨hle, ?_⟩
  cases hl : t.rounds.getLast? with
  | none => rw [hl] at hmatch; cases hmatch
  | some r =>
      rw [hl] at hmatch
      exact ⟨r, rfl, hmatch⟩

/-- A concrete one-round tournament before its round starts. -/
def c8_start : Tournament :=
  { name := "Open de Paris", location := "Paris",
    start_date := "2026-01-01", end_date := "2026-01-02",
    description := "", number_of_rounds := 1, current_round := 0,
    rounds := [], players := [pAnna, pBob],
    player_scores := [("AB12345", 0), ("CD67890", 0)],
    _is_finished := false }

/-- The unfinished match of the first round of the concrete run. -/
def c8_match_open : Match :=
  { player1_national_id := "AB12345", player2_national_id := "CD67890",
    player1_score := 0, player2_score := 0, is_finished := false }

/-- c8_start after starting its only round. -/
def c8_w1 : Tournament :=
  { c8_start with
      current_round := 1,
      rounds := [{ name := "Tour 1", start_time := "d1", end_time := none,
                   «matches» := [c8_match_open], is_finished := false }] }

/-- c8_w1 after entering the result 1-0. -/
def c8_w2 : Tournament :=
  { c8_start with
      current_round := 1,
      rounds := [{ name := "Tour 1", start_time := "d1", end_time := none,
                   «matches» := [c3_match], is_finished := false }] }

/-- c8_w2 after closing the round: a genuinely finished tournament. -/
def c8_w3 : Tournament :=
  { c8_start with
      current_round := 1,
      rounds := [{ name := "Tour 1", start_time := "d1",
                   end_time := some "d2", «matches» := [c3_match],
                   is_finished := true }] }

theorem finished_only_after_schedule_witness :
    c8_start._is_finished = false ∧ Reachable c8_start c8_w3 ∧
    c8_w3.is_finished = true ∧
    (c8_w3.number_of_rounds ≤ c8_w3.current_round ∧
      ∃ r, c8_w3.rounds.getLast? = some r ∧ r.is_finished = true) := by
  have hs1 : TournamentStep c8_start c8_w1 := by
    refine TournamentStep.start_next_round c8_start [(pAnna, pBob)] "d1"
      c8_w1 ?_
    rfl
  have hs2 : TournamentStep c8_w1 c8_w2 := by
    have hset : Match.set_result c8_match_open 1 0 = .ok c3_match := by
      norm_num [Match.set_result, validate_score, c8_match_open, c3_match]
    exact TournamentStep.round_step c8_w1 0
      { name := "Tour 1", start_time := "d1", end_time := none,
        «matches» := [c8_match_open], is_finished := false } _ rfl
      (RoundStep.set_result _ 0 c8_match_open c3_match 1 0 rfl hset)
  have hs3 : TournamentStep c8_w2 c8_w3 := by
    refine TournamentStep.round_step c8_w2 0
      { name := "Tour 1", start_time := "d1", end_time := none,
        «matches» := [c3_match], is_finished := false } _ rfl
      (RoundStep.end_round _ "d2" _ ?_)
    rfl
  have hreach : Reachable c8_start c8_w3 :=
    Relation.ReflTransGen.tail
      (Relation.ReflTransGen.tail (Relation.ReflTransGen.single hs1) hs2) hs3
  exact ⟨rfl, hreach, rfl,
    finished_only_after_schedule c8_start c8_w3 rfl hreach rfl⟩

/-- C8 counterexample: calling finish_tournament right after the first of
four scheduled rounds has started makes is_finished report true while only
one round of four has been played and the last round is still open, and no
tie-break is pending at that point (needs_tiebreaker_round is false before
and after the call).  The claim that no operation sequence produces such a
state is therefore false. -/
theorem finish_tournament_below_schedule :
    (Tournament.start_next_round c6_tournament [(pAnna, pBob)] "d1" =
      .ok { c6_tournament with
              current_round := 1,
              rounds := [{ name := "Tour 1", start_time := "d1",
                           end_time := none, «matches» := [c8_match_open],
                           is_finished := false }] }) ∧
    (Tournament.needs_tiebreaker_round
      { c6_tournament with
          current_round := 1,
          rounds := [{ name := "Tour 1", start_time := "d1",
                       end_time := none, «matches» := [c8_match_open],
                       is_finished := false }] } = false) ∧
    (Tournament.is_finished
      (Tournament.finish_tournament
        { c6_tournament with
            current_round := 1,
            rounds := [{ name := "Tour 1", start_time := "d1",
                         end_time := none, «matches» := [c8_match_open],
                         is_finished := false }] }) = true) ∧
    (1 < Tournament.number_of_rounds
      (Tournament.finish_tournament
        { c6_tournament with
            current_round := 1,
            rounds := [{ name := "Tour 1", start_time := "d1",
                         end_time := none, «matches» := [c8_match_open],
                         is_finished := false }] })) ∧
    (Tournament.rounds
      (Tournament.finish_tournament
        { c6_tournament with
            current_round := 1,
            rounds := [{ name := "Tour 1", start_time := "d1",
                         end_time := none, «matches» := [c8_match_open],
                         is_finished := false }] })).getLast? =
      some { name := "Tour 1", start_time := "d1", end_time := none,
             «matches» := [c8_match_open], is_finished := false } ∧
    Round.is_finished
      { name := "Tour 1", start_time := "d1", end_time := none,
        «matches» := [c8_match_open], is_finished := false } = false := by
  refine ⟨rfl, ?_, rfl, by norm_num [c6_tournament,
    Tournament.finish_tournament], rfl, rfl⟩
  norm_num [Tournament.needs_tiebreaker_round, c6_tournament]

/-- C10: a round with zero matches reports all matches finished vacuously,
so end_round succeeds without the pending-matches error: an empty round can
be closed, becoming immutable while containing no finished match. -/
theorem empty_round_closes (r : Round) (now : String)
    (hempty : r.«matches» = []) :
    r.all_matches_finished = true ∧
    Round.end_round r now =
      .ok { r with end_time := some now, is_finished := true } := by
  have hall : r.all_matches_finished = true := by
    simp [Round.all_matches_finished, hempty]
  refine ⟨hall, ?_⟩
  simp only [Round.end_round]
  rw [if_neg (not_not_intro hall)]

theorem empty_round_closes_witness :
    Round.all_matches_finished
      { name := "Tour 1", start_time := "t0", end_time := none,
        «matches» := [], is_finished := false } = true ∧
    Round.end_round
      { name := "Tour 1", start_time := "t0", end_time := none,
        «matches» := [], is_finished := false } "t1" =
      .ok { name := "Tour 1", start_time := "t0", end_time := some "t1",
            «matches» := [], is_finished := true } :=
  empty_round_closes _ "t1" rfl

end Chess
